import Mathlib

/-!
Verification of the vesting-calculation and batch-partition logic of the
SYMM token operational scripts.

The definitions below are shallow embeddings of the two pure functions in
`scripts/future_reset_vesting_plans.py`:

* `calculate_future_locked_amount` (lines 91-120): given a vesting plan
  tuple `(amount, claimed_amount, start_time, end_time)` and a future
  timestamp, computes the still-locked amount.  Python integers are
  unbounded; the on-chain values are unsigned, so plan fields and
  timestamps are modelled as `Nat`.  The arithmetic inside the function is
  carried out over `Int`, and Python's floor division `//` is modelled by
  `pyFloorDiv`, which can fail with `ZeroDivisionError` exactly when the
  divisor is zero, so that absence of division-by-zero is a theorem and
  not an artifact of the embedding.

* `batch_list` (lines 123-126): a generator looping over
  `range(0, len(input_list), batch_size)` and yielding the slices
  `input_list[i : i + batch_size]`.  The index sequence of Python's
  `range` is embedded by `pyRangeLen`, including the `ValueError` raised
  for a zero step and the empty index sequence produced by a negative
  step (counting down from 0 never exceeds a non-negative stop).
-/

deriving instance DecidableEq for Except

namespace SymmToken

/-- Python runtime exceptions that the embedded code can surface. -/
inductive PyErr where
  /-- Raised by `//` and `range` when a divisor or step is zero. -/
  | zeroDivisionError : PyErr
  /-- Raised by `range(a, b, 0)`. -/
  | valueError : PyErr
  /-- The `InvalidPlan` error demanded by the design document; the scripts
  themselves never raise it. -/
  | invalidPlan : PyErr
  deriving DecidableEq, Repr

/-- A vesting plan as returned by the `vestingPlans` contract view:
`(amount, claimedAmount, startTime, endTime)`, all `uint256`. -/
structure VestingPlan where
  amount : Nat
  claimedAmount : Nat
  startTime : Nat
  endTime : Nat
  deriving DecidableEq, Repr

/-- Python floor division `a // b`, which raises `ZeroDivisionError` when
`b = 0` and otherwise rounds towards negative infinity (`Int.fdiv`). -/
def pyFloorDiv (a b : Int) : Except PyErr Int :=
  if b = 0 then .error .zeroDivisionError else .ok (Int.fdiv a b)

/-- Embedding of `calculate_future_locked_amount(vesting_plan,
future_timestamp)` from `scripts/future_reset_vesting_plans.py`. -/
def calculate_future_locked_amount (p : VestingPlan) (future_timestamp : Nat) :
    Except PyErr Int :=
  let amount : Int := p.amount
  if p.amount = 0 then
    .ok 0
  else
    let unlockedE : Except PyErr Int :=
      if future_timestamp ≥ p.endTime then
        .ok amount
      else if future_timestamp ≤ p.startTime then
        .ok 0
      else
        let duration : Int := (p.endTime : Int) - (p.startTime : Int)
        let elapsed : Int := (future_timestamp : Int) - (p.startTime : Int)
        pyFloorDiv (amount * elapsed) duration
    match unlockedE with
    | .error e => .error e
    | .ok unlocked => .ok (amount - unlocked)

/-- The index sequence of Python's `range(0, stop, step)` over a list of
length `stop`.  A zero step raises `ValueError`; a negative step counts
down from 0 and immediately fails the `> stop` bound for `stop ≥ 0`, so it
yields no index at all; a positive step `s` yields
`0, s, 2*s, ...` below `stop`, which is `⌈stop / s⌉` many indices. -/
def pyRangeLen (stop : Nat) (step : Int) : Except PyErr (List Nat) :=
  if step = 0 then .error .valueError
  else if step < 0 then .ok []
  else .ok ((List.range ((stop + step.toNat - 1) / step.toNat)).map
    (fun i => i * step.toNat))

/-- Embedding of `batch_list(input_list, batch_size)` from
`scripts/future_reset_vesting_plans.py`, fully iterated: the slice
`input_list[i : i + batch_size]` at each index produced by
`range(0, len(input_list), batch_size)`.  For non-negative bounds the
Python slice `l[i : i + s]` is `(l.drop i).take s`. -/
def batch_list {α : Type} (input_list : List α) (batch_size : Int) :
    Except PyErr (List (List α)) :=
  match pyRangeLen input_list.length batch_size with
  | .error e => .error e
  | .ok idxs => .ok (idxs.map fun i => (input_list.drop i).take batch_size.toNat)

/-- The value `calculate_future_locked_amount` computes, as a plain `Nat`
function; `calculate_eq_ok` below proves the embedding always returns
`.ok` of this value. -/
def lockedNat (p : VestingPlan) (t : Nat) : Nat :=
  if p.amount = 0 then 0
  else if t ≥ p.endTime then 0
  else if t ≤ p.startTime then p.amount
  else p.amount - p.amount * (t - p.startTime) / (p.endTime - p.startTime)

/-- Recursive reformulation of the batching loop: repeatedly split off a
prefix of length `bs`.  Used to reason about `batch_list` by induction. -/
def chunks {α : Type} (bs : Nat) (l : List α) : List (List α) :=
  if _hstop : bs = 0 ∨ l.length = 0 then []
  else l.take bs :: chunks bs (l.drop bs)
termination_by l.length
decreasing_by
  push_neg at _hstop
  simp only [List.length_drop]
  omega

/-- The unlocked fraction never exceeds the total when the elapsed time is
within the duration. -/
theorem mul_div_le_self (a ts es : Nat) (hle : ts ≤ es) (hpos : 0 < es) :
    a * ts / es ≤ a := by
  calc a * ts / es ≤ a * es / es := Nat.div_le_div_right (Nat.mul_le_mul_left a hle)
    _ = a := Nat.mul_div_cancel a hpos

/-- The embedded `calculate_future_locked_amount` never raises: it returns
`.ok` of the `Nat`-valued `lockedNat`. -/
theorem calculate_eq_ok (p : VestingPlan) (t : Nat) :
    calculate_future_locked_amount p t = .ok ((lockedNat p t : Nat) : Int) := by
  unfold calculate_future_locked_amount lockedNat
  by_cases h0 : p.amount = 0
  · simp [h0]
  · by_cases he : t ≥ p.endTime
    · simp [h0, he]
    · by_cases hs : t ≤ p.startTime
      · simp [h0, he, hs]
      · push_neg at he hs
        have hse : p.startTime < p.endTime := lt_trans hs he
        have hdur : ((p.endTime : Int) - (p.startTime : Int)) ≠ 0 := by
          omega
        simp only [h0, if_false, ge_iff_le, not_le.mpr he, if_false,
          not_le.mpr (lt_of_le_of_lt (le_refl _) hs), if_false, pyFloorDiv,
          hdur, ite_false]
        have h2 : ((t : Int) - (p.startTime : Int)) = ((t - p.startTime : Nat) : Int) := by
          omega
        have h3 : ((p.endTime : Int) - (p.startTime : Int))
            = ((p.endTime - p.startTime : Nat) : Int) := by
          omega
        rw [h2, h3, ← Nat.cast_mul, ← Int.ofNat_fdiv]
        have hle : p.amount * (t - p.startTime) / (p.endTime - p.startTime) ≤ p.amount :=
          mul_div_le_self _ _ _ (by omega) (by omega)
        generalize p.amount * (t - p.startTime) / (p.endTime - p.startTime) = q at hle ⊢
        congr 1
        omega

/-- The locked amount never exceeds the plan's total amount. -/
theorem lockedNat_le (p : VestingPlan) (t : Nat) : lockedNat p t ≤ p.amount := by
  unfold lockedNat
  split_ifs <;> simp [Nat.sub_le]

/-- The locked amount is non-increasing in the timestamp. -/
theorem lockedNat_anti (p : VestingPlan) {t1 t2 : Nat} (h : t1 ≤ t2) :
    lockedNat p t2 ≤ lockedNat p t1 := by
  unfold lockedNat
  by_cases h0 : p.amount = 0
  · simp [h0]
  · by_cases he2 : t2 ≥ p.endTime
    · simp [h0, he2]
    · have he1 : ¬ t1 ≥ p.endTime := by omega
      by_cases hs2 : t2 ≤ p.startTime
      · have hs1 : t1 ≤ p.startTime := le_trans h hs2
        simp [h0, he2, he1, hs2, hs1]
      · by_cases hs1 : t1 ≤ p.startTime
        · simp [h0, he2, he1, hs2, hs1, Nat.sub_le]
        · have hq : p.amount * (t1 - p.startTime) / (p.endTime - p.startTime)
              ≤ p.amount * (t2 - p.startTime) / (p.endTime - p.startTime) :=
            Nat.div_le_div_right (Nat.mul_le_mul_left _ (by omega))
          simp only [h0, he2, he1, hs2, hs1, if_false, ite_false]
          generalize p.amount * (t2 - p.startTime) / (p.endTime - p.startTime) = A at hq ⊢
          generalize p.amount * (t1 - p.startTime) / (p.endTime - p.startTime) = B at hq ⊢
          omega

/-- `chunks` on the empty list. -/
theorem chunks_nil {α : Type} (bs : Nat) : chunks bs ([] : List α) = [] := by
  rw [chunks]
  simp

/-- One unfolding step of `chunks` on a non-empty list. -/
theorem chunks_cons {α : Type} {bs : Nat} (hbs : 0 < bs) {l : List α} (hl : l ≠ []) :
    chunks bs l = l.take bs :: chunks bs (l.drop bs) := by
  rw [chunks, dif_neg]
  rintro (h | h)
  · omega
  · exact hl (List.length_eq_zero.mp h)

/-- The chunks flatten back to the original list. -/
theorem chunks_flatten_aux {α : Type} (bs : Nat) (hbs : 0 < bs) :
    ∀ (n : Nat) (l : List α), l.length ≤ n → (chunks bs l).flatten = l := by
  intro n
  induction n with
  | zero =>
    intro l hl
    have h : l = [] := List.length_eq_zero.mp (Nat.le_zero.mp hl)
    subst h
    simp [chunks_nil]
  | succ n ih =>
    intro l hl
    by_cases hn : l = []
    · subst hn
      simp [chunks_nil]
    · rw [chunks_cons hbs hn, List.flatten_cons,
        ih (l.drop bs) (by
          have := List.length_pos.mpr hn
          simp only [List.length_drop]
          omega)]
      exact List.take_append_drop bs l

/-- No chunk is empty. -/
theorem chunks_ne_nil_aux {α : Type} (bs : Nat) (hbs : 0 < bs) :
    ∀ (n : Nat) (l : List α), l.length ≤ n → ∀ b ∈ chunks bs l, b ≠ [] := by
  intro n
  induction n with
  | zero =>
    intro l hl
    have h : l = [] := List.length_eq_zero.mp (Nat.le_zero.mp hl)
    subst h
    simp [chunks_nil]
  | succ n ih =>
    intro l hl
    by_cases hn : l = []
    · subst hn
      simp [chunks_nil]
    · rw [chunks_cons hbs hn]
      intro b hb
      rcases List.mem_cons.mp hb with rfl | hb
      · have hpos := List.length_pos.mpr hn
        intro hc
        have : (l.take bs).length = 0 := by rw [hc]; rfl
        simp only [List.length_take] at this
        omega
      · exact ih (l.drop bs) (by
          have := List.length_pos.mpr hn
          simp only [List.length_drop]
          omega) b hb

/-- Every chunk except possibly the last has length exactly `bs`. -/
theorem chunks_dropLast_aux {α : Type} (bs : Nat) (hbs : 0 < bs) :
    ∀ (n : Nat) (l : List α), l.length ≤ n →
      ∀ b ∈ (chunks bs l).dropLast, b.length = bs := by
  intro n
  induction n with
  | zero =>
    intro l hl
    have h : l = [] := List.length_eq_zero.mp (Nat.le_zero.mp hl)
    subst h
    simp [chunks_nil]
  | succ n ih =>
    intro l hl
    by_cases hn : l = []
    · subst hn
      simp [chunks_nil]
    · by_cases hd : l.drop bs = []
      · rw [chunks_cons hbs hn, hd, chunks_nil]
        simp
      · rw [chunks_cons hbs hn,
          List.dropLast_cons_of_ne_nil (by rw [chunks_cons hbs hd]; simp)]
        intro b hb
        rcases List.mem_cons.mp hb with rfl | hb
        · have hlt : bs < l.length := by
            by_contra hc
            push_neg at hc
            exact hd (List.drop_eq_nil_of_le hc)
          simp only [List.length_take]
          omega
        · exact ih (l.drop bs) (by
            have := List.length_pos.mpr hn
            simp only [List.length_drop]
            omega) b hb

/-- The number of chunks is the ceiling of `length / bs`. -/
theorem chunks_length_aux {α : Type} (bs : Nat) (hbs : 0 < bs) :
    ∀ (n : Nat) (l : List α), l.length ≤ n →
      (chunks bs l).length = (l.length + bs - 1) / bs := by
  intro n
  induction n with
  | zero =>
    intro l hl
    have h : l = [] := List.length_eq_zero.mp (Nat.le_zero.mp hl)
    subst h
    rw [chunks_nil]
    simp [Nat.div_eq_of_lt (show bs - 1 < bs by omega)]
  | succ n ih =>
    intro l hl
    by_cases hn : l = []
    · subst hn
      rw [chunks_nil]
      simp [Nat.div_eq_of_lt (show bs - 1 < bs by omega)]
    · have hpos := List.length_pos.mpr hn
      rw [chunks_cons hbs hn, List.length_cons,
        ih (l.drop bs) (by simp only [List.length_drop]; omega),
        List.length_drop]
      rcases le_or_lt l.length bs with hcase | hcase
      · have h1 : l.length - bs + bs - 1 = bs - 1 := by omega
        have h2 : l.length + bs - 1 = (l.length - 1) + bs := by omega
        rw [h1, h2, Nat.add_div_right _ hbs, Nat.div_eq_of_lt (by omega),
          Nat.div_eq_of_lt (by omega)]
      · have h1 : l.length - bs + bs - 1 = l.length - 1 := by omega
        have h2 : l.length + bs - 1 = (l.length - 1) + bs := by omega
        rw [h1, h2, Nat.add_div_right _ hbs]

/-- The slices taken by the `range`-indexed loop are exactly the chunks. -/
theorem range_map_eq_chunks_aux {α : Type} (bs : Nat) (hbs : 0 < bs) :
    ∀ (n : Nat) (l : List α), l.length ≤ n →
      (List.range ((l.length + bs - 1) / bs)).map (fun i => (l.drop (i * bs)).take bs)
        = chunks bs l := by
  intro n
  induction n with
  | zero =>
    intro l hl
    have h : l = [] := List.length_eq_zero.mp (Nat.le_zero.mp hl)
    subst h
    rw [chunks_nil]
    simp [Nat.div_eq_of_lt (show bs - 1 < bs by omega)]
  | succ n ih =>
    intro l hl
    by_cases hn : l = []
    · subst hn
      rw [chunks_nil]
      simp [Nat.div_eq_of_lt (show bs - 1 < bs by omega)]
    · have hpos := List.length_pos.mpr hn
      have hcount : (l.length + bs - 1) / bs
          = ((l.drop bs).length + bs - 1) / bs + 1 := by
        simp only [List.length_drop]
        rcases le_or_lt l.length bs with hcase | hcase
        · have h1 : l.length - bs + bs - 1 = bs - 1 := by omega
          have h2 : l.length + bs - 1 = (l.length - 1) + bs := by omega
          rw [h1, h2, Nat.add_div_right _ hbs, Nat.div_eq_of_lt (by omega),
            Nat.div_eq_of_lt (by omega)]
        · have h1 : l.length - bs + bs - 1 = l.length - 1 := by omega
          have h2 : l.length + bs - 1 = (l.length - 1) + bs := by omega
          rw [h1, h2, Nat.add_div_right _ hbs]
      rw [hcount, List.range_succ_eq_map, List.map_cons, List.map_map,
        chunks_cons hbs hn]
      congr 1
      · simp
      · rw [← ih (l.drop bs) (by simp only [List.length_drop]; omega)]
        apply List.map_congr_left
        intro i _
        simp only [Function.comp_apply, List.drop_drop]
        congr 2
        simp only [Nat.succ_eq_add_one]
        ring

/-- For a positive batch size the embedded `batch_list` succeeds and
returns exactly the chunk decomposition. -/
theorem batch_list_eq_chunks {α : Type} (l : List α) (b : Int) (hb : 0 < b) :
    batch_list l b = .ok (chunks b.toNat l) := by
  have hb0 : ¬ b = 0 := by omega
  have hbneg : ¬ b < 0 := by omega
  have hbs : 0 < b.toNat := by omega
  unfold batch_list pyRangeLen
  rw [if_neg hb0, if_neg hbneg]
  simp only [List.map_map]
  rw [← range_map_eq_chunks_aux b.toNat hbs l.length l le_rfl]
  rfl

example : lockedNat ⟨1000, 0, 1000, 2000⟩ 1500 = 500 := by decide

/-- C1: `calculate_future_locked_amount` on plan `(a, c, s, e)` at time `t`
returns 0 when the total amount is 0; otherwise 0 once `t` reaches the end
time; otherwise the full amount when `t` is at or before the start time;
and otherwise `a - a * (t - s) / (e - s)` with truncating integer
division.  On the plan `(1000, 0, 1000, 2000)` at time 1500 the locked
result is 500. -/
theorem C1_locked_amount_formula (a c s e t : Nat) :
    (a = 0 → calculate_future_locked_amount ⟨a, c, s, e⟩ t = .ok 0) ∧
    (a ≠ 0 → e ≤ t → calculate_future_locked_amount ⟨a, c, s, e⟩ t = .ok 0) ∧
    (a ≠ 0 → t < e → t ≤ s →
      calculate_future_locked_amount ⟨a, c, s, e⟩ t = .ok ((a : Nat) : Int)) ∧
    (a ≠ 0 → t < e → s < t →
      calculate_future_locked_amount ⟨a, c, s, e⟩ t
        = .ok ((a - a * (t - s) / (e - s) : Nat) : Int)) ∧
    calculate_future_locked_amount ⟨1000, 0, 1000, 2000⟩ 1500 = .ok 500 := by
  refine ⟨?_, ?_, ?_, ?_, by decide⟩
  · intro h0
    rw [calculate_eq_ok]
    simp [lockedNat, h0]
  · intro h0 he
    rw [calculate_eq_ok]
    simp [lockedNat, h0, he]
  · intro h0 he hs
    rw [calculate_eq_ok]
    simp [lockedNat, h0, not_le.mpr he, hs]
  · intro h0 he hs
    rw [calculate_eq_ok]
    simp [lockedNat, h0, not_le.mpr he, not_le.mpr hs]

/-- Witness for C1 at the spec's example plan, exercising the interior
branch with all hypotheses discharged. -/
theorem C1_locked_amount_formula_witness :
    calculate_future_locked_amount ⟨1000, 0, 1000, 2000⟩ 1500
      = .ok ((1000 - 1000 * (1500 - 1000) / (2000 - 1000) : Nat) : Int) :=
  (C1_locked_amount_formula 1000 0 1000 2000 1500).2.2.2.1 (by decide) (by decide)
    (by decide)

/-- C2: for every list and positive batch size, `batch_list` succeeds and
the batches are the contiguous slices `items[i*n : i*n+n]` in original
order; they flatten back to the input; all batches except possibly the
last have length exactly `n`; no batch is empty (so an empty input yields
no batches); and there are `⌈length/n⌉` batches. -/
theorem C2_batch_list_partition {α : Type} (items : List α) (n : Int) (hn : 0 < n) :
    ∃ bs, batch_list items n = .ok bs ∧
      bs.flatten = items ∧
      (∀ j, ∀ hj : j < bs.length,
        bs.get ⟨j, hj⟩ = (items.drop (j * n.toNat)).take n.toNat) ∧
      (∀ b ∈ bs.dropLast, b.length = n.toNat) ∧
      (∀ b ∈ bs, b ≠ []) ∧
      (items = [] → bs = []) ∧
      bs.length = (items.length + n.toNat - 1) / n.toNat := by
  have hbs : 0 < n.toNat := by omega
  refine ⟨chunks n.toNat items, batch_list_eq_chunks items n hn,
    chunks_flatten_aux _ hbs items.length items le_rfl, ?_,
    chunks_dropLast_aux _ hbs items.length items le_rfl,
    chunks_ne_nil_aux _ hbs items.length items le_rfl,
    fun h => by rw [h, chunks_nil],
    chunks_length_aux _ hbs items.length items le_rfl⟩
  intro j hj
  have hc := range_map_eq_chunks_aux n.toNat hbs items.length items le_rfl
  rw [List.get_eq_getElem, List.getElem_of_eq hc.symm]
  simp [List.getElem_map, List.getElem_range]

/-- Witness for C2 on the spec's example: seven items in batches of 3. -/
theorem C2_batch_list_partition_witness :
    ∃ bs, batch_list [1, 2, 3, 4, 5, 6, 7] (3 : Int) = .ok bs ∧
      bs.flatten = [1, 2, 3, 4, 5, 6, 7] ∧
      (∀ j, ∀ hj : j < bs.length,
        bs.get ⟨j, hj⟩ = ([1, 2, 3, 4, 5, 6, 7].drop (j * (3 : Int).toNat)).take
          (3 : Int).toNat) ∧
      (∀ b ∈ bs.dropLast, b.length = (3 : Int).toNat) ∧
      (∀ b ∈ bs, b ≠ []) ∧
      ([1, 2, 3, 4, 5, 6, 7] = ([] : List Nat) → bs = []) ∧
      bs.length = ([1, 2, 3, 4, 5, 6, 7].length + (3 : Int).toNat - 1) / (3 : Int).toNat :=
  C2_batch_list_partition [1, 2, 3, 4, 5, 6, 7] 3 (by decide)

/-- C3 fails as stated: on the plan `(1000, 0, 500, 500)`, whose start and
end times coincide, the function does not raise `InvalidPlan`; it returns
normally (the `t ≥ endTime` / `t ≤ startTime` branches cover every
timestamp, so the division is never reached). -/
theorem C3_counterexample :
    calculate_future_locked_amount ⟨1000, 0, 500, 500⟩ 600 ≠ .error PyErr.invalidPlan := by
  decide

/-- C3 amended: for every plan with `startTime = endTime` the computation
raises no error at all — in particular it never divides by zero — and
returns 0 when `atTime ≥ endTime`, else the total amount (0 for an empty
plan). -/
theorem C3_start_eq_end_no_error (p : VestingPlan) (t : Nat)
    (h : p.startTime = p.endTime) :
    calculate_future_locked_amount p t =
      .ok (if p.amount = 0 then 0 else if p.endTime ≤ t then 0 else (p.amount : Int)) := by
  rw [calculate_eq_ok]
  by_cases h0 : p.amount = 0
  · simp [lockedNat, h0]
  · by_cases he : p.endTime ≤ t
    · simp [lockedNat, h0, he]
    · simp [lockedNat, h0, he, show t ≤ p.startTime by omega]

/-- Witness for the amended C3 on the degenerate plan `(1000, 0, 500, 500)`
at a time before the common start/end. -/
theorem C3_start_eq_end_no_error_witness :
    calculate_future_locked_amount ⟨1000, 0, 500, 500⟩ 400 =
      .ok (if (1000 : Nat) = 0 then 0 else if (500 : Nat) ≤ 400 then 0
        else ((1000 : Nat) : Int)) :=
  C3_start_eq_end_no_error ⟨1000, 0, 500, 500⟩ 400 rfl

/-- C4 fails as stated: a negative batch size does not make `batch_list`
fail; it silently yields no batches at all. -/
theorem C4_counterexample : batch_list ([1] : List Nat) (-1) = .ok [] := by
  decide

/-- C4 amended: a zero batch size makes `batch_list` fail (with Python's
`ValueError`, not a dedicated `InvalidArgument`), while a negative batch
size yields the empty sequence of batches without any error. -/
theorem C4_nonpositive_batch (items : List Nat) (b : Int) (hb : b ≤ 0) :
    batch_list items b = if b = 0 then .error PyErr.valueError else .ok [] := by
  unfold batch_list pyRangeLen
  by_cases h0 : b = 0
  · simp [h0]
  · simp [h0, show b < 0 by omega]

/-- Witness for the amended C4 at batch size 0. -/
theorem C4_nonpositive_batch_witness :
    batch_list ([1, 2] : List Nat) 0
      = if (0 : Int) = 0 then .error PyErr.valueError else .ok [] :=
  C4_nonpositive_batch [1, 2] 0 (by decide)

/-- C5: for a fixed plan the locked amount is non-increasing in the
timestamp: both calls return values, and the later value is at most the
earlier one. -/
theorem C5_locked_monotone (p : VestingPlan) (t1 t2 : Nat) (h : t1 ≤ t2) :
    ∃ v1 v2 : Nat, calculate_future_locked_amount p t1 = .ok ((v1 : Nat) : Int) ∧
      calculate_future_locked_amount p t2 = .ok ((v2 : Nat) : Int) ∧ v2 ≤ v1 :=
  ⟨lockedNat p t1, lockedNat p t2, calculate_eq_ok p t1, calculate_eq_ok p t2,
    lockedNat_anti p h⟩

/-- Witness for C5 on the example plan at times 1200 ≤ 1700. -/
theorem C5_locked_monotone_witness :
    ∃ v1 v2 : Nat,
      calculate_future_locked_amount ⟨1000, 0, 1000, 2000⟩ 1200 = .ok ((v1 : Nat) : Int) ∧
      calculate_future_locked_amount ⟨1000, 0, 1000, 2000⟩ 1700 = .ok ((v2 : Nat) : Int) ∧
      v2 ≤ v1 :=
  C5_locked_monotone ⟨1000, 0, 1000, 2000⟩ 1200 1700 (by decide)

/-- C6 fails as stated: on the plan `(1000, 0, 500, 500)` the locked
amount at `startTime` is 0, not the total amount 1000, because
`startTime = endTime` makes the fully-vested branch fire first. -/
theorem C6_counterexample :
    calculate_future_locked_amount ⟨1000, 0, 500, 500⟩ 500 = .ok 0 ∧
    (Except.ok (0 : Int) : Except PyErr Int) ≠ .ok ((1000 : Nat) : Int) := by
  constructor
  · decide
  · decide

/-- C6 amended: for every plan the locked amount at `endTime` is 0; and
for every plan whose start time is strictly before its end time, the
locked amount at `startTime` is the plan's total amount. -/
theorem C6_endpoint_values (p : VestingPlan) :
    calculate_future_locked_amount p p.endTime = .ok 0 ∧
    (p.startTime < p.endTime →
      calculate_future_locked_amount p p.startTime = .ok ((p.amount : Nat) : Int)) := by
  constructor
  · rw [calculate_eq_ok]
    simp [lockedNat]
  · intro h
    rw [calculate_eq_ok]
    by_cases h0 : p.amount = 0
    · simp [lockedNat, h0]
    · simp [lockedNat, h0, not_le.mpr h]

/-- Witness for the amended C6 on the example plan `(1000, 0, 1000, 2000)`. -/
theorem C6_endpoint_values_witness :
    calculate_future_locked_amount ⟨1000, 0, 1000, 2000⟩ 2000 = .ok 0 ∧
    calculate_future_locked_amount ⟨1000, 0, 1000, 2000⟩ 1000 = .ok ((1000 : Nat) : Int) :=
  ⟨(C6_endpoint_values ⟨1000, 0, 1000, 2000⟩).1,
    (C6_endpoint_values ⟨1000, 0, 1000, 2000⟩).2 (by decide)⟩

/-- C7: the result of `calculate_future_locked_amount` does not depend on
the plan's `claimedAmount` field. -/
theorem C7_claimed_amount_irrelevant (a c1 c2 s e t : Nat) :
    calculate_future_locked_amount ⟨a, c1, s, e⟩ t
      = calculate_future_locked_amount ⟨a, c2, s, e⟩ t := rfl

/-- C8: for arbitrary unsigned inputs — with no precondition relating
start and end time — the function returns a value `v` with
`0 ≤ v ≤ totalAmount`. -/
theorem C8_result_bounded (p : VestingPlan) (t : Nat) :
    ∃ v : Int, calculate_future_locked_amount p t = .ok v ∧
      0 ≤ v ∧ v ≤ (p.amount : Int) :=
  ⟨((lockedNat p t : Nat) : Int), calculate_eq_ok p t, Int.natCast_nonneg _,
    Nat.cast_le.mpr (lockedNat_le p t)⟩

/-- C9: the function is deterministic — equal plan tuples and equal
timestamps give equal results — and, being a plain function of its
arguments in this embedding, it touches no external state. -/
theorem C9_deterministic (p1 p2 : VestingPlan) (t1 t2 : Nat)
    (hp : p1 = p2) (ht : t1 = t2) :
    calculate_future_locked_amount p1 t1 = calculate_future_locked_amount p2 t2 := by
  subst hp
  subst ht
  rfl

/-- Witness for C9 at the example plan. -/
theorem C9_deterministic_witness :
    calculate_future_locked_amount ⟨1000, 0, 1000, 2000⟩ 1500
      = calculate_future_locked_amount ⟨1000, 0, 1000, 2000⟩ 1500 :=
  C9_deterministic ⟨1000, 0, 1000, 2000⟩ ⟨1000, 0, 1000, 2000⟩ 1500 1500 rfl rfl

/-- C10: with batch size 0 the (iterated) generator raises `ValueError`
for a non-empty input, while any negative batch size silently yields no
batches at all. -/
theorem C10_zero_vs_negative_batch {α : Type} (items : List α) (b : Int) :
    (items ≠ [] → batch_list items 0 = .error PyErr.valueError) ∧
    (b < 0 → batch_list items b = .ok []) := by
  constructor
  · intro _
    rfl
  · intro hb
    unfold batch_list pyRangeLen
    simp [show ¬ b = 0 by omega, hb]

/-- Witness for C10 on the list `[1, 2]` with batch sizes 0 and -2. -/
theorem C10_zero_vs_negative_batch_witness :
    batch_list ([1, 2] : List Nat) 0 = .error PyErr.valueError ∧
    batch_list ([1, 2] : List Nat) (-2) = .ok [] :=
  ⟨(C10_zero_vs_negative_batch ([1, 2] : List Nat) (-2)).1 (by decide),
    (C10_zero_vs_negative_batch ([1, 2] : List Nat) (-2)).2 (by decide)⟩
example : calculate_future_locked_amount ⟨1000, 0, 1000, 2000⟩ 1500 = .ok 500 := by
  decide
example : batch_list [1, 2, 3, 4, 5, 6, 7] 3 = .ok [[1, 2, 3], [4, 5, 6], [7]] := by
  decide
example : batch_list ([1] : List Nat) 0 = .error .valueError := by decide
example : batch_list ([1, 2] : List Nat) (-1) = .ok [] := by decide
example : chunks 3 [1, 2, 3, 4, 5, 6, 7] = [[1, 2, 3], [4, 5, 6], [7]] := by
  simp [chunks]

end SymmToken
